import Mathlib

/-!
Verification development for the dynamic style generation and deduplication
subsystem of the Pokecomparator UI library.

The embedded code comes from
`projects/ui/src/lib/atoms/helpers/atom-config-helper.ts`
(`sanitizeCssValue`, `generateSignature`, `hashString`, `injectStyle`),
`projects/ui/src/lib/atoms/center/center.ts` (the `Center` component) and the
`Stack` component, together with the `Size` token list from
`projects/ui/src/lib/types/size.ts`.

Modelling conventions:
- JavaScript primitive configuration values (string / boolean / number / null)
  are embedded as the inductive type `JsValue`; template-literal stringification
  is `JsValue.toDisplay`.
- A configuration record (JS object) is a `List (String × JsValue)` in
  insertion order; the JS object invariant "no duplicate keys" appears as a
  `Nodup` hypothesis on the mapped keys where it matters.
- JavaScript 32-bit integer coercions are made explicit: `toUint32` models
  `x >>> 0` (and `ToUint32`), `toInt32` re-interprets an unsigned 32-bit value
  as a signed one, and `jsXor` models the JS `^` operator on numbers.
- `localeCompare`-based key sorting is embedded as sorting by a code-point
  lexicographic order on keys (`charListLe`), which matches `localeCompare`'s
  determinism and totality (the only properties the claims rely on).
- The DOM `document.head` is embedded as a `List StyleNode` in insertion
  order; `querySelector` returns the first match, `appendChild` appends.
-/

namespace PokeStyle

set_option maxRecDepth 65536

/-! ### JavaScript values -/

/-- Embedded JavaScript primitive value, as allowed in a configuration record
(string, boolean, number, or null). -/
inductive JsValue where
  | str (s : String)
  | boolean (b : Bool)
  | num (n : Int)
  | null
deriving DecidableEq, Repr

/-- JavaScript template-literal stringification of a primitive value, as used
by the source's backtick interpolation when building the canonical string. -/
def JsValue.toDisplay : JsValue → String
  | .str s => s
  | .boolean true => "true"
  | .boolean false => "false"
  | .num n => toString n
  | .null => "null"

/-! ### Value sanitizer

Source (`atom-config-helper.ts`):
`if (!val) return ''; return String(val).replace(/[^0-9a-zA-Z().% \-+*\x2f]/g, '');`
-/

/-- Character allow-list of the sanitizer's regular expression character class
`[0-9a-zA-Z().% \-+*\x2f]`. -/
def allowedCssChar (c : Char) : Bool :=
  (decide ('0' ≤ c) && decide (c ≤ '9')) ||
  (decide ('a' ≤ c) && decide (c ≤ 'z')) ||
  (decide ('A' ≤ c) && decide (c ≤ 'Z')) ||
  c == '(' || c == ')' || c == '.' || c == '%' || c == ' ' ||
  c == '-' || c == '+' || c == '*' || c == '/'

/-- Embedding of `sanitizeCssValue`: the falsy guard returns `""` for the
empty string; otherwise every character outside the allow-list is dropped
(the global `replace` with the negated class and empty replacement). -/
def sanitizeCssValue (val : String) : String :=
  if val = "" then "" else String.mk (val.data.filter allowedCssChar)

/-! ### Canonicalizer and signature hasher

Source (`atom-config-helper.ts`):
`generateSignature` sorts `Object.entries(config)` with `keyA.localeCompare(keyB)`,
renders each entry as a `key:value` template literal, joins with `'|'` and
hashes; `hashString` folds `h = (h * 33) ^ s.charCodeAt(i)` from `h = 5381`
and returns `(h >>> 0).toString(36)`.
-/

/-- Lexicographic less-or-equal on character lists by code point: the total
order underlying the embedding of `keyA.localeCompare(keyB)` (the claims rely
only on `localeCompare` inducing a deterministic total order on keys). -/
def charListLe : List Char → List Char → Bool
  | [], _ => true
  | _ :: _, [] => false
  | a :: as, b :: bs =>
    if a.toNat < b.toNat then true
    else if b.toNat < a.toNat then false
    else charListLe as bs

/-- Comparator used to sort configuration entries: compare the keys
(embedding of the `keyA.localeCompare(keyB)` comparator). -/
def entryLE (a b : String × JsValue) : Prop := charListLe a.1.data b.1.data = true

instance : DecidableRel entryLE := fun a b =>
  inferInstanceAs (Decidable (charListLe a.1.data b.1.data = true))

/-- Sorting of `Object.entries(config)` by key. -/
def sortEntries (config : List (String × JsValue)) : List (String × JsValue) :=
  List.insertionSort entryLE config

/-- Canonical serialization of a configuration record: sorted entries rendered
as `key:value` and joined with `'|'`. -/
def canonicalString (config : List (String × JsValue)) : String :=
  String.intercalate "|" ((sortEntries config).map (fun kv => kv.1 ++ ":" ++ kv.2.toDisplay))

/-- Digit characters of JavaScript's `Number.prototype.toString(36)`. -/
def base36Digit (n : Nat) : Char :=
  "0123456789abcdefghijklmnopqrstuvwxyz".data.getD n '0'

/-- Fuelled digit extraction for base-36 rendering (most significant digit
first); the fuel only bounds the recursion depth. -/
def toBase36Go : Nat → Nat → List Char
  | 0, _ => []
  | _ + 1, 0 => []
  | fuel + 1, n + 1 => toBase36Go fuel ((n + 1) / 36) ++ [base36Digit ((n + 1) % 36)]

/-- Embedding of `Number.prototype.toString(36)` for unsigned 32-bit inputs. -/
def toBase36 (n : Nat) : String :=
  if n = 0 then "0" else String.mk (toBase36Go n n)

/-- JavaScript `ToUint32` on an integer (also the value of `x >>> 0`). -/
def toUint32 (i : Int) : Nat := (i % (2 ^ 32 : Int)).toNat

/-- Re-interpretation of an unsigned 32-bit value as a signed 32-bit integer,
as performed by JavaScript's `ToInt32` on an in-range bit pattern. -/
def toInt32 (u : Nat) : Int := if u < 2 ^ 31 then (u : Int) else (u : Int) - 2 ^ 32

/-- JavaScript's `^` on numbers: both operands are reduced to 32 bits, the bit
patterns are XORed, and the result is read back as a signed 32-bit integer. -/
def jsXor (a b : Int) : Int := toInt32 (toUint32 a ^^^ toUint32 b)

/-- One iteration of the source's hash loop: `h = (h * 33) ^ c`. The product
is exact in JavaScript's float arithmetic for a 32-bit `h`, so embedding it as
integer multiplication is faithful. -/
def hashStep (h : Int) (c : Nat) : Int := jsXor (h * 33) (c : Int)

/-- Embedding of `hashString`: fold the hash loop over the UTF-16 code units
(clause codes coincide with Lean code points on the BMP strings the subsystem
produces) starting from the seed `5381`, then `(h >>> 0).toString(36)`. -/
def hashString (s : String) : String :=
  toBase36 (toUint32 (s.data.foldl (fun h c => hashStep h c.toNat) 5381))

/-- Embedding of `generateSignature`: hash of the canonical serialization. -/
def generateSignature (config : List (String × JsValue)) : String :=
  hashString (canonicalString config)

/-! ### Style registry

Source (`atom-config-helper.ts`), `injectStyle(component, signature, style)`:
look up `style[data-generated-by=component][data-signature=signature]` in
`document.head`; if absent, create a style element carrying both data
attributes and the style text and append it; if present, overwrite its
`textContent`.
-/

/-- A generated `<style>` element in `document.head`: its two data attributes
and its text content. -/
structure StyleNode where
  component : String
  signature : String
  content : String
deriving DecidableEq, Repr

/-- Whether a node is the one selected by
`style[data-generated-by=c][data-signature=s]`. -/
def keyMatches (n : StyleNode) (c s : String) : Bool :=
  n.component == c && n.signature == s

/-- Embedding of `injectStyle`: update the first node matching the composite
`(component, signature)` key, or append a fresh node when none matches. -/
def injectStyle (doc : List StyleNode) (c s t : String) : List StyleNode :=
  match doc with
  | [] => [⟨c, s, t⟩]
  | n :: rest =>
    if keyMatches n c s then { n with content := t } :: rest
    else n :: injectStyle rest c s t

/-- Number of document nodes carrying the composite key `(c, s)`. -/
def countKey (doc : List StyleNode) (c s : String) : Nat :=
  (doc.filter (fun n => keyMatches n c s)).length

/-- Whether some document node carries the composite key `(c, s)`. -/
def hasKey (doc : List StyleNode) (c s : String) : Bool :=
  doc.any (fun n => keyMatches n c s)

/-- The core uniqueness invariant: at most one style-carrying node per
`(element-kind, signature)` pair. -/
def RegistryInvariant (doc : List StyleNode) : Prop :=
  ∀ c s, countKey doc c s ≤ 1

/-- A sequence of `injectStyle` calls, each given as
`(component, signature, styleText)`. -/
def applyUpserts (doc : List StyleNode) (ops : List (String × String × String)) :
    List StyleNode :=
  ops.foldl (fun d op => injectStyle d op.1 op.2.1 op.2.2) doc

/-! ### Size tokens (`types/size.ts`) -/

/-- Embedding of `ALL_SIZES` from `types/size.ts`. -/
def ALL_SIZES : List String :=
  ["s-5", "s-4", "s-3", "s-2", "s-1", "s0", "s1", "s2", "s3", "s4", "s5", "measure"]

/-! ### The `Center` component (`center.ts`) -/

/-- The `config` object built by `Center.updateConfigAndSignature`. -/
structure CenterConfig where
  maxWidth : String
  centerText : Bool
  intrinsic : Bool
  gutterWidth : Option String
deriving DecidableEq, Repr

/-- Mutable fields of a `Center` instance: the four `@Input()` configuration
inputs plus the derived `ident` and `config` fields. -/
structure CenterState where
  maxWidth : String
  centerText : Bool
  intrinsic : Bool
  gutterWidth : Option String
  ident : Option String
  config : Option CenterConfig
deriving DecidableEq, Repr

/-- The object literal passed to `generateSignature` by
`Center.updateConfigAndSignature`, with its JS insertion order. -/
def centerConfigRecord (c : CenterConfig) : List (String × JsValue) :=
  [("maxWidth", .str c.maxWidth),
   ("centerText", .boolean c.centerText),
   ("intrinsic", .boolean c.intrinsic),
   ("gutterWidth", match c.gutterWidth with | none => .null | some g => .str g)]

/-- Embedding of `Center.updateConfigAndSignature`. -/
def Center.updateConfigAndSignature (st : CenterState) : CenterState :=
  let config : CenterConfig :=
    { maxWidth :=
        if ALL_SIZES.contains st.maxWidth then "var(--" ++ st.maxWidth ++ ")"
        else sanitizeCssValue st.maxWidth
      centerText := st.centerText
      intrinsic := st.intrinsic
      gutterWidth :=
        match st.gutterWidth with
        | none => none
        | some g =>
          some (if ALL_SIZES.contains g then "var(--" ++ g ++ ")" else sanitizeCssValue g) }
  { st with
    config := some config
    ident := some ("pc-center-" ++ generateSignature (centerConfigRecord config)) }

/-- Embedding of the private `Center.generateStyle` template literal. -/
def Center.generateStyle (signature : String) (config : CenterConfig) : String :=
  "\n    .center[data-pc-center=\"" ++ signature ++ "\"] \x7b\n" ++
  "        box-sizing: content-box;\n" ++
  "        margin-inline: auto;\n" ++
  "        max-inline-size: " ++ config.maxWidth ++ ";\n" ++
  "        " ++ (if config.centerText then "text-align: center;" else "") ++ "\n" ++
  "        " ++
  (if config.intrinsic then "    display:flex; flex-direction: column; align-items: center;"
   else "") ++ "\n" ++
  "        " ++
  (match config.gutterWidth with
   | some g => "padding-inline-start: " ++ g ++ "; padding-inline-end: " ++ g ++ ";"
   | none => "") ++ "\n" ++
  "  \x7d\n    "

/-- Embedding of `Center.updateStyle`: guard on falsy `config`/`ident`, then
`injectStyle('pc-center', ident, generateStyle(ident, config))`. -/
def Center.updateStyle (st : CenterState) (doc : List StyleNode) : List StyleNode :=
  match st.config, st.ident with
  | some config, some id => injectStyle doc "pc-center" id (Center.generateStyle id config)
  | _, _ => doc

/-- Embedding of `Center.ngOnInit`. -/
def Center.ngOnInit (st : CenterState) (doc : List StyleNode) :
    CenterState × List StyleNode :=
  let st1 := Center.updateConfigAndSignature st
  (st1, Center.updateStyle st1 doc)

/-- Embedding of `Center.ngOnChanges`: the framework has already assigned the
new input values into the state; `changes` holds the names of the inputs that
changed. The source's guard reads
`changes['padding'] || changes['borderWidth'] || changes['backgroundColor'] || changes['color']`. -/
def Center.ngOnChanges (changes : List String) (st : CenterState)
    (doc : List StyleNode) : CenterState × List StyleNode :=
  if st.ident = none then (st, doc)
  else if changes.contains "padding" || changes.contains "borderWidth" ||
      changes.contains "backgroundColor" || changes.contains "color" then
    let st1 := Center.updateConfigAndSignature st
    (st1, Center.updateStyle st1 doc)
  else (st, doc)

/-! ### The `Stack` component -/

/-- Host DOM element of a `Stack` instance: its `data-pc-stack` attribute and
its class list. -/
structure HostNode where
  dataPcStack : Option String
  classes : List String
deriving DecidableEq, Repr

/-- The `config` object built by `Stack.updateConfigAndSignature`. -/
structure StackConfig where
  space : String
  recursive : Bool
  splitAfter : Option Int
deriving DecidableEq, Repr

/-- Mutable fields of a `Stack` instance: its `@Input()` configuration inputs,
the derived `ident` and `config` fields, and its host element. -/
structure StackState where
  space : String
  recursive : Bool
  splitAfter : Option Int
  ident : Option String
  config : Option StackConfig
  host : HostNode
deriving DecidableEq, Repr

/-- The object literal passed to `generateSignature` by
`Stack.updateConfigAndSignature`, with its JS insertion order. -/
def stackConfigRecord (c : StackConfig) : List (String × JsValue) :=
  [("space", .str c.space),
   ("recursive", .boolean c.recursive),
   ("splitAfter", match c.splitAfter with | none => .null | some n => .num n)]

/-- Embedding of `Stack.updateConfigAndSignature`, including the host-node
tagging (`classList.add('stack')` and `setAttribute('data-pc-stack', signature)`).
`Math.max(1, Math.floor(Number(x) || 1))` on an integral input reduces to
`max 1 (if x = 0 then 1 else x)`. -/
def Stack.updateConfigAndSignature (st : StackState) : StackState :=
  let space :=
    if ALL_SIZES.contains st.space then "var(--" ++ st.space ++ ")"
    else sanitizeCssValue st.space
  let splitAfter :=
    match st.splitAfter with
    | some x => some (max 1 (if x = 0 then 1 else x))
    | none => none
  let config : StackConfig := { space := space, recursive := st.recursive, splitAfter := splitAfter }
  let signature := "pc-stack-" ++ generateSignature (stackConfigRecord config)
  { st with
    config := some config
    ident := some signature
    host :=
      { dataPcStack := some signature
        classes :=
          if st.host.classes.contains "stack" then st.host.classes
          else st.host.classes ++ ["stack"] } }

/-- Host-node part of `Stack.ngOnDestroy`:
`host.removeAttribute('data-pc-stack'); host.classList.remove('stack')`. -/
def Stack.ngOnDestroyHost (h : HostNode) : HostNode :=
  { dataPcStack := none, classes := h.classes.filter (fun c => !(c == "stack")) }

/-- Embedding of `Stack.ngOnDestroy` on the instance state (the `try`/`catch`
wrapper is irrelevant in the pure model: no step can throw). -/
def Stack.ngOnDestroy (st : StackState) : StackState :=
  { st with host := Stack.ngOnDestroyHost st.host }

/-- Embedding of the private `Stack.generateStyle` template literal (the
`splitAfter` interpolation guard is JS truthiness: `null` and `0` are falsy). -/
def Stack.generateStyle (signature : String) (config : StackConfig) : String :=
  "\n    .stack[data-pc-stack=\"" ++ signature ++ "\"] \x7b\n" ++
  "      display: flex;\n      flex-direction: column;\n" ++
  "          justify-content: flex-start;\n    \x7d\n\n" ++
  "    .stack[data-pc-stack=\"" ++ signature ++ "\"] > * \x7b\n" ++
  "        margin-block: 0;\n    \x7d\n    \n    " ++
  (if config.recursive then
    "\n    .stack[data-pc-stack=\"" ++ signature ++ "\"] * + * \x7b\n" ++
    "      margin-block-start: " ++ config.space ++ ";\n    \x7d\n    "
   else
    " \n    .stack[data-pc-stack=\"" ++ signature ++ "\"] > * + * \x7b\n" ++
    "      margin-block-start: " ++ config.space ++ ";\n    \x7d") ++
  "\n\n    " ++
  (match config.splitAfter with
   | some n =>
     if n = 0 then ""
     else
       "\n    .stack[data-pc-stack=\"" ++ signature ++ "\"]:only-child \x7b\n" ++
       "      block-size: 100%;\n    \x7d \n" ++
       "    .stack[data-pc-stack=\"" ++ signature ++ "\"] > :nth-child(" ++ toString n ++
       ")\x7b\n      margin-block-end: auto;\n    \x7d\n    "
   | none => "") ++
  "\n    "

/-- Embedding of the private `Stack.updateStyle`. -/
def Stack.updateStyle (st : StackState) (doc : List StyleNode) : List StyleNode :=
  match st.config, st.ident with
  | some config, some id => injectStyle doc "pc-stack" id (Stack.generateStyle id config)
  | _, _ => doc

/-- Embedding of `Stack.ngOnInit`. -/
def Stack.ngOnInit (st : StackState) (doc : List StyleNode) :
    StackState × List StyleNode :=
  let st1 := Stack.updateConfigAndSignature st
  (st1, Stack.updateStyle st1 doc)

/-- Embedding of `Stack.ngOnChanges`: the guard reads
`changes['space'] || changes['recursive']` (and nothing else). -/
def Stack.ngOnChanges (changes : List String) (st : StackState)
    (doc : List StyleNode) : StackState × List StyleNode :=
  if st.ident = none then (st, doc)
  else if changes.contains "space" || changes.contains "recursive" then
    let st1 := Stack.updateConfigAndSignature st
    (st1, Stack.updateStyle st1 doc)
  else (st, doc)

/-- Replacement of the element at one position of a list, leaving every other
position unchanged. -/
def modifyAt {α : Type} : List α → Nat → (α → α) → List α
  | [], _, _ => []
  | a :: t, 0, f => f a :: t
  | a :: t, n + 1, f => a :: modifyAt t n f

/-- A document together with the host nodes of the live `Stack` instances. -/
structure StackWorld where
  doc : List StyleNode
  hosts : List HostNode
deriving DecidableEq, Repr

/-- Destruction of the `i`-th instance: its `ngOnDestroy` runs on its own host
node; nothing else of the world is touched (the source touches nothing else). -/
def destroyInstance (w : StackWorld) (i : Nat) : StackWorld :=
  { doc := w.doc, hosts := modifyAt w.hosts i Stack.ngOnDestroyHost }

/-! ### Spec-side reference definitions (for refinement claims) -/

/-- Reference rolling hash following the spec's words: seed `5381`, fold
`h := ((h * 33) XOR c)` reduced to a 32-bit value by unsigned overflow
wraparound, final result encoded in base 36. -/
def specRollingHash (s : String) : String :=
  toBase36 (s.data.foldl (fun h c => (h * 33 ^^^ c.toNat) % 2 ^ 32) 5381)

/-- Spec-side character allow-list: alphanumerics, `.`, `(`, `)`, `%`, space,
`-`, `+`, `*`, `/`. -/
def specAllowedChar (c : Char) : Prop :=
  ('0' ≤ c ∧ c ≤ '9') ∨ ('a' ≤ c ∧ c ≤ 'z') ∨ ('A' ≤ c ∧ c ≤ 'Z') ∨
  c = '(' ∨ c = ')' ∨ c = '.' ∨ c = '%' ∨ c = ' ' ∨
  c = '-' ∨ c = '+' ∨ c = '*' ∨ c = '/'

/-! ## Registry lemmas -/

theorem keyMatches_set_content (n : StyleNode) (c s t : String) :
    keyMatches { n with content := t } c s = keyMatches n c s := rfl

theorem keyMatches_self (c s t : String) : keyMatches ⟨c, s, t⟩ c s = true := by
  simp [keyMatches]

theorem countKey_le_length (doc : List StyleNode) (c s : String) :
    countKey doc c s ≤ doc.length :=
  List.length_filter_le _ _

theorem countKey_injectStyle_same (doc : List StyleNode) (c s t : String) :
    countKey (injectStyle doc c s t) c s = max 1 (countKey doc c s) := by
  induction doc with
  | nil => simp [injectStyle, countKey, keyMatches]
  | cons n rest ih =>
    by_cases h : keyMatches n c s
    · simp [injectStyle, h, countKey, keyMatches_set_content, List.filter_cons] at *
    · simpa [injectStyle, h, countKey, List.filter_cons] using ih

theorem countKey_injectStyle_other (doc : List StyleNode) (c s t c' s' : String)
    (h : ¬(c = c' ∧ s = s')) :
    countKey (injectStyle doc c s t) c' s' = countKey doc c' s' := by
  have hnew : keyMatches ⟨c, s, t⟩ c' s' = false := by
    rcases Decidable.em (c = c') with hc | hc
    · rcases Decidable.em (s = s') with hs | hs
      · exact absurd ⟨hc, hs⟩ h
      · simp [keyMatches, hs]
    · simp [keyMatches, hc]
  induction doc with
  | nil => simp [injectStyle, countKey, List.filter_cons, hnew]
  | cons n rest ih =>
    have ih' : (List.filter (fun m => keyMatches m c' s') (injectStyle rest c s t)).length =
        (List.filter (fun m => keyMatches m c' s') rest).length := ih
    by_cases hm : keyMatches n c s
    · simp [injectStyle, hm, countKey, keyMatches_set_content, List.filter_cons]
      split <;> simp
    · simp [injectStyle, hm, countKey, List.filter_cons]
      split <;> simp [ih']

theorem registryInvariant_nil : RegistryInvariant [] := by
  intro c s
  simp [countKey]

theorem registryInvariant_injectStyle {doc : List StyleNode} (c s t : String)
    (h : RegistryInvariant doc) : RegistryInvariant (injectStyle doc c s t) := by
  intro c' s'
  rcases Decidable.em (c = c' ∧ s = s') with hk | hk
  · rcases hk with ⟨rfl, rfl⟩
    rw [countKey_injectStyle_same]
    have := h c s
    omega
  · rw [countKey_injectStyle_other doc c s t c' s' hk]
    exact h c' s'

theorem registryInvariant_applyUpserts {doc : List StyleNode}
    (ops : List (String × String × String)) (h : RegistryInvariant doc) :
    RegistryInvariant (applyUpserts doc ops) := by
  induction ops generalizing doc with
  | nil => exact h
  | cons op rest ih =>
    exact ih (registryInvariant_injectStyle op.1 op.2.1 op.2.2 h)

theorem injectStyle_singleton_self (c s t : String) :
    injectStyle [⟨c, s, t⟩] c s t = [⟨c, s, t⟩] := by
  simp [injectStyle, keyMatches]

theorem applyUpserts_replicate_singleton (c s t : String) (n : Nat) :
    applyUpserts [⟨c, s, t⟩] (List.replicate n (c, s, t)) = [⟨c, s, t⟩] := by
  induction n with
  | zero => rfl
  | succ m ih =>
    rw [List.replicate_succ]
    show applyUpserts (injectStyle [⟨c, s, t⟩] c s t) (List.replicate m (c, s, t)) = _
    rw [injectStyle_singleton_self]
    exact ih

theorem applyUpserts_replicate_same (c s t : String) (n : Nat) (hn : 1 ≤ n) :
    applyUpserts [] (List.replicate n (c, s, t)) = [⟨c, s, t⟩] := by
  obtain ⟨m, rfl⟩ : ∃ m, n = m + 1 := ⟨n - 1, by omega⟩
  rw [List.replicate_succ]
  show applyUpserts (injectStyle [] c s t) (List.replicate m (c, s, t)) = _
  show applyUpserts [⟨c, s, t⟩] (List.replicate m (c, s, t)) = _
  exact applyUpserts_replicate_singleton c s t m

/-- C1: starting from a document with no generated style nodes, any sequence
of upsert calls keeps at most one style-carrying node per
`(element-kind, signature)` pair; in particular N ≥ 2 upserts with identical
kind and signature (as produced by identical Configuration Records) leave
exactly one style-carrying node in the document. -/
theorem registry_uniqueness_invariant (ops : List (String × String × String))
    (k s t : String) (n : Nat) (hn : 2 ≤ n) :
    RegistryInvariant (applyUpserts [] ops) ∧
    applyUpserts [] (List.replicate n (k, s, t)) = [⟨k, s, t⟩] ∧
    (applyUpserts [] (List.replicate n (k, s, t))).length = 1 ∧
    countKey (applyUpserts [] (List.replicate n (k, s, t))) k s = 1 := by
  have hrep := applyUpserts_replicate_same k s t n (by omega)
  refine ⟨registryInvariant_applyUpserts ops registryInvariant_nil, hrep, ?_, ?_⟩
  · rw [hrep]; rfl
  · rw [hrep]
    simp [countKey, keyMatches, List.filter_cons]

/-- Witness for C1 at a concrete upsert sequence and a concrete double mount. -/
theorem registry_uniqueness_invariant_witness :
    2 ≤ 2 ∧
    (RegistryInvariant
        (applyUpserts [] [("pc-box", "pc-box-a", "x"), ("pc-box", "pc-box-b", "y")]) ∧
      applyUpserts [] (List.replicate 2 ("pc-box", "pc-box-a", "x")) =
        [⟨"pc-box", "pc-box-a", "x"⟩] ∧
      (applyUpserts [] (List.replicate 2 ("pc-box", "pc-box-a", "x"))).length = 1 ∧
      countKey (applyUpserts [] (List.replicate 2 ("pc-box", "pc-box-a", "x")))
        "pc-box" "pc-box-a" = 1) :=
  ⟨by omega,
   registry_uniqueness_invariant
     [("pc-box", "pc-box-a", "x"), ("pc-box", "pc-box-b", "y")]
     "pc-box" "pc-box-a" "x" 2 (by omega)⟩

theorem injectStyle_append_of_absent (doc : List StyleNode) (c s t : String)
    (h : hasKey doc c s = false) :
    injectStyle doc c s t = doc ++ [⟨c, s, t⟩] := by
  induction doc with
  | nil => rfl
  | cons n rest ih =>
    simp only [hasKey, List.any_cons, Bool.or_eq_false_iff] at h
    simp [injectStyle, h.1, ih h.2]

theorem injectStyle_update_of_present (doc : List StyleNode) (c s t : String)
    (h : hasKey doc c s = true) :
    ∃ pre n post, doc = pre ++ n :: post ∧ keyMatches n c s = true ∧
      (∀ m ∈ pre, keyMatches m c s = false) ∧
      injectStyle doc c s t = pre ++ { n with content := t } :: post := by
  induction doc with
  | nil => simp [hasKey] at h
  | cons a rest ih =>
    by_cases ha : keyMatches a c s = true
    · exact ⟨[], a, rest, rfl, ha, by simp, by simp [injectStyle, ha]⟩
    · have ha' : keyMatches a c s = false := by simpa using ha
      have hrest : hasKey rest c s = true := by
        simpa [hasKey, List.any_cons, ha'] using h
      obtain ⟨pre, n, post, hdoc, hn, hpre, hinj⟩ := ih hrest
      refine ⟨a :: pre, n, post, by rw [hdoc]; rfl, hn, ?_, ?_⟩
      · intro m hm
        rcases List.mem_cons.mp hm with rfl | hm
        · exact ha'
        · exact hpre m hm
      · simp [injectStyle, ha', hinj]

theorem injectStyle_idem (doc : List StyleNode) (c s t : String) :
    injectStyle (injectStyle doc c s t) c s t = injectStyle doc c s t := by
  induction doc with
  | nil => simp [injectStyle, keyMatches]
  | cons n rest ih =>
    by_cases h : keyMatches n c s = true
    · simp [injectStyle, h, keyMatches_set_content]
    · have h' : keyMatches n c s = false := by simpa using h
      simp [injectStyle, h', ih]

/-- C4: `injectStyle` is a true upsert keyed by `(kind, signature)`: with no
matching node it appends a fresh node carrying the style text; with a matching
node it overwrites the first match's content unconditionally and touches
nothing else; it is idempotent, and from any document satisfying the
uniqueness invariant a double upsert leaves exactly one node for the key. The
embedded operation is a total function, so the call never fails. -/
theorem injectStyle_upsert_correct (doc : List StyleNode) (c s t : String) :
    (hasKey doc c s = false → injectStyle doc c s t = doc ++ [⟨c, s, t⟩]) ∧
    (hasKey doc c s = true →
      ∃ pre n post, doc = pre ++ n :: post ∧ keyMatches n c s = true ∧
        (∀ m ∈ pre, keyMatches m c s = false) ∧
        injectStyle doc c s t = pre ++ { n with content := t } :: post) ∧
    injectStyle (injectStyle doc c s t) c s t = injectStyle doc c s t ∧
    (RegistryInvariant doc →
      countKey (injectStyle (injectStyle doc c s t) c s t) c s = 1) :=
  ⟨injectStyle_append_of_absent doc c s t,
   injectStyle_update_of_present doc c s t,
   injectStyle_idem doc c s t,
   fun hinv => by
     rw [countKey_injectStyle_same, countKey_injectStyle_same]
     have := hinv c s
     omega⟩

/-- Witness for C4 on a concrete one-node document. -/
theorem injectStyle_upsert_correct_witness :
    hasKey [⟨"pc-box", "pc-box-a", "old"⟩] "pc-box" "pc-box-a" = true ∧
    RegistryInvariant [⟨"pc-box", "pc-box-a", "old"⟩] ∧
    (∃ pre n post,
      [(⟨"pc-box", "pc-box-a", "old"⟩ : StyleNode)] = pre ++ n :: post ∧
        keyMatches n "pc-box" "pc-box-a" = true ∧
        (∀ m ∈ pre, keyMatches m "pc-box" "pc-box-a" = false) ∧
        injectStyle [⟨"pc-box", "pc-box-a", "old"⟩] "pc-box" "pc-box-a" "new" =
          pre ++ { n with content := "new" } :: post) ∧
    countKey
      (injectStyle
        (injectStyle [⟨"pc-box", "pc-box-a", "old"⟩] "pc-box" "pc-box-a" "new")
        "pc-box" "pc-box-a" "new") "pc-box" "pc-box-a" = 1 := by
  have hinv : RegistryInvariant [⟨"pc-box", "pc-box-a", "old"⟩] := by
    intro c s
    exact le_trans (countKey_le_length _ c s) (by simp)
  have h := injectStyle_upsert_correct [⟨"pc-box", "pc-box-a", "old"⟩] "pc-box" "pc-box-a" "new"
  exact ⟨by decide, hinv, h.2.1 (by decide), h.2.2.2 hinv⟩

/-! ## Destruction lemmas -/

theorem modifyAt_getElem_ne {α : Type} (l : List α) (i j : Nat) (f : α → α)
    (h : j ≠ i) : (modifyAt l i f)[j]? = l[j]? := by
  induction l generalizing i j with
  | nil => rfl
  | cons a t ih =>
    cases i with
    | zero =>
      cases j with
      | zero => exact absurd rfl h
      | succ m => simp [modifyAt]
    | succ k =>
      cases j with
      | zero => simp [modifyAt]
      | succ m => simp [modifyAt, ih k m (by omega)]

theorem modifyAt_getElem_self {α : Type} (l : List α) (i : Nat) (f : α → α) :
    (modifyAt l i f)[i]? = (l[i]?).map f := by
  induction l generalizing i with
  | nil => rfl
  | cons a t ih =>
    cases i with
    | zero => simp [modifyAt]
    | succ k => simp [modifyAt, ih k]

theorem hasKey_injectStyle_mono (doc : List StyleNode) (c s t c' s' : String)
    (h : hasKey doc c' s' = true) :
    hasKey (injectStyle doc c s t) c' s' = true := by
  induction doc with
  | nil => simp [hasKey] at h
  | cons n rest ih =>
    simp only [hasKey, List.any_cons, Bool.or_eq_true] at h
    by_cases hm : keyMatches n c s = true
    · simp only [injectStyle, hm, if_true, hasKey, List.any_cons,
        keyMatches_set_content, Bool.or_eq_true]
      exact h
    · have hm' : keyMatches n c s = false := by simpa using hm
      simp only [injectStyle, hm', Bool.false_eq_true, if_false, hasKey,
        List.any_cons, Bool.or_eq_true]
      rcases h with h | h
      · exact Or.inl h
      · exact Or.inr (ih h)

/-- C6: destroying a `Stack` instance only clears that instance's own
host-node tag (its `data-pc-stack` attribute and `stack` class); the document
and all other hosts are untouched, and the subsystem's only registry
operation, `injectStyle`, never removes a `(kind, signature)` key either — so
a Style Entry shared by several instances survives any destruction. -/
theorem destruction_non_eviction (w : StackWorld) (i : Nat)
    (doc : List StyleNode) (c s t c' s' : String) :
    (destroyInstance w i).doc = w.doc ∧
    (∀ j, j ≠ i → (destroyInstance w i).hosts[j]? = w.hosts[j]?) ∧
    (∀ h, (destroyInstance w i).hosts[i]? = some h → h.dataPcStack = none) ∧
    (hasKey doc c' s' = true → hasKey (injectStyle doc c s t) c' s' = true) := by
  refine ⟨rfl, ?_, ?_, hasKey_injectStyle_mono doc c s t c' s'⟩
  · intro j hj
    exact modifyAt_getElem_ne w.hosts i j _ hj
  · intro h hh
    have hh' : (modifyAt w.hosts i Stack.ngOnDestroyHost)[i]? = some h := hh
    rw [modifyAt_getElem_self] at hh'
    rcases hx : w.hosts[i]? with _ | h0
    · rw [hx] at hh'
      simp at hh'
    · rw [hx] at hh'
      simp only [Option.map_some'] at hh'
      have : Stack.ngOnDestroyHost h0 = h := Option.some.inj hh'
      rw [← this]
      rfl

/-- Witness for C6: a two-instance world sharing one Style Entry; instance 0
is destroyed, instance 1's tag and the entry survive. -/
theorem destruction_non_eviction_witness :
    (1 : Nat) ≠ 0 ∧
    hasKey [⟨"pc-stack", "pc-stack-x", "css"⟩] "pc-stack" "pc-stack-x" = true ∧
    (destroyInstance
        ⟨[⟨"pc-stack", "pc-stack-x", "css"⟩],
         [⟨some "pc-stack-x", ["stack"]⟩, ⟨some "pc-stack-x", ["stack"]⟩]⟩ 0).doc =
      [⟨"pc-stack", "pc-stack-x", "css"⟩] ∧
    (destroyInstance
        ⟨[⟨"pc-stack", "pc-stack-x", "css"⟩],
         [⟨some "pc-stack-x", ["stack"]⟩, ⟨some "pc-stack-x", ["stack"]⟩]⟩ 0).hosts[1]? =
      some ⟨some "pc-stack-x", ["stack"]⟩ ∧
    (⟨none, []⟩ : HostNode).dataPcStack = none ∧
    hasKey (injectStyle [⟨"pc-stack", "pc-stack-x", "css"⟩] "pc-stack" "pc-stack-x" "css2")
      "pc-stack" "pc-stack-x" = true := by
  have h := destruction_non_eviction
    ⟨[⟨"pc-stack", "pc-stack-x", "css"⟩],
     [⟨some "pc-stack-x", ["stack"]⟩, ⟨some "pc-stack-x", ["stack"]⟩]⟩ 0
    [⟨"pc-stack", "pc-stack-x", "css"⟩] "pc-stack" "pc-stack-x" "css2"
    "pc-stack" "pc-stack-x"
  refine ⟨by decide, by decide, h.1, ?_, ?_, h.2.2.2 (by decide)⟩
  · rw [h.2.1 1 (by decide)]
    decide
  · exact h.2.2.1 ⟨none, []⟩ (by decide)

/-! ## Sanitizer lemmas -/

theorem allowedCssChar_iff (c : Char) : allowedCssChar c = true ↔ specAllowedChar c := by
  simp only [allowedCssChar, specAllowedChar, Bool.or_eq_true, Bool.and_eq_true,
    decide_eq_true_eq, beq_iff_eq]
  tauto

theorem mem_sanitize_allowed (x : String) (c : Char)
    (h : c ∈ (sanitizeCssValue x).data) : allowedCssChar c = true := by
  unfold sanitizeCssValue at h
  split at h
  · rw [show ("" : String).data = [] from rfl] at h
    exact absurd h (List.not_mem_nil c)
  · exact (List.mem_filter.mp h).2

/-- C3: every character of a sanitized value belongs to the spec's allow-list
(alphanumerics, `.`, `(`, `)`, `%`, space, `-`, `+`, `*`, `/`); all other
characters are dropped, and in particular none of `\x7b \x7d ; < > " '` ever
survives sanitization. The embedded sanitizer is a total function, so the
call never errors. -/
theorem sanitizeCssValue_allowlist (x : String) :
    (∀ c, c ∈ (sanitizeCssValue x).data → specAllowedChar c) ∧
    (∀ c, c ∈ ['\x7b', '\x7d', ';', '<', '>', '"', '\''] →
      c ∉ (sanitizeCssValue x).data) := by
  refine ⟨fun c hc => (allowedCssChar_iff c).mp (mem_sanitize_allowed x c hc), ?_⟩
  intro c hc hmem
  have hall := mem_sanitize_allowed x c hmem
  fin_cases hc <;> exact absurd hall (by decide)

/-- Witness for C3 on a style-injection attempt string. -/
theorem sanitizeCssValue_allowlist_witness :
    ('(' ∈ (sanitizeCssValue "red; \x7d body \x7b display:none; calc(1px)").data) ∧
    specAllowedChar '(' ∧
    (';' ∈ (['\x7b', '\x7d', ';', '<', '>', '"', '\''] : List Char)) ∧
    (';' ∉ (sanitizeCssValue "red; \x7d body \x7b display:none; calc(1px)").data) :=
  ⟨by decide,
   (sanitizeCssValue_allowlist "red; \x7d body \x7b display:none; calc(1px)").1 '(' (by decide),
   by decide,
   (sanitizeCssValue_allowlist "red; \x7d body \x7b display:none; calc(1px)").2 ';' (by decide)⟩

/-- C8: the sanitizer is idempotent: sanitizing an already-sanitized string
changes nothing. -/
theorem sanitizeCssValue_idempotent (x : String) :
    sanitizeCssValue (sanitizeCssValue x) = sanitizeCssValue x := by
  by_cases hx : x = ""
  · subst hx
    rfl
  · have hxv : sanitizeCssValue x = String.mk (x.data.filter allowedCssChar) := by
      simp only [sanitizeCssValue, if_neg hx]
    by_cases hy : String.mk (x.data.filter allowedCssChar) = ""
    · rw [hxv, hy]
      rfl
    · rw [hxv]
      simp only [sanitizeCssValue, if_neg hy]
      congr 1
      show (x.data.filter allowedCssChar).filter allowedCssChar = x.data.filter allowedCssChar
      rw [List.filter_filter]
      simp

/-! ## Cross-kind namespacing lemmas -/

theorem stack_center_prefix_ne (x y : String) :
    "pc-stack-" ++ x ≠ "pc-center-" ++ y := by
  intro h
  have hd := congrArg String.data h
  rw [String.data_append, String.data_append] at hd
  have h1 : ("pc-stack-" : String).data = ['p', 'c', '-', 's', 't', 'a', 'c', 'k', '-'] := rfl
  have h2 : ("pc-center-" : String).data =
      ['p', 'c', '-', 'c', 'e', 'n', 't', 'e', 'r', '-'] := rfl
  rw [h1, h2] at hd
  simp at hd

/-- C7: a `Stack` and a `Center` instance always get distinct signatures
(each kind's own prefix guarantees it, whatever the configurations hash to),
and the registry keys entries by the `(kind, signature)` composite, so
upserting both produces two distinct Style Entries. -/
theorem cross_kind_no_collision (ss : StackState) (cs : CenterState)
    (t1 t2 sigS sigC : String)
    (hS : (Stack.updateConfigAndSignature ss).ident = some sigS)
    (hC : (Center.updateConfigAndSignature cs).ident = some sigC) :
    sigS ≠ sigC ∧
    (injectStyle (injectStyle [] "pc-stack" sigS t1) "pc-center" sigC t2).length = 2 ∧
    countKey (injectStyle (injectStyle [] "pc-stack" sigS t1) "pc-center" sigC t2)
      "pc-stack" sigS = 1 ∧
    countKey (injectStyle (injectStyle [] "pc-stack" sigS t1) "pc-center" sigC t2)
      "pc-center" sigC = 1 := by
  have hS' : ∃ x, sigS = "pc-stack-" ++ x := by
    simp only [Stack.updateConfigAndSignature, Option.some.injEq] at hS
    exact ⟨_, hS.symm⟩
  have hC' : ∃ y, sigC = "pc-center-" ++ y := by
    simp only [Center.updateConfigAndSignature, Option.some.injEq] at hC
    exact ⟨_, hC.symm⟩
  obtain ⟨xs, rfl⟩ := hS'
  obtain ⟨ys, rfl⟩ := hC'
  have hstep :
      injectStyle (injectStyle [] "pc-stack" ("pc-stack-" ++ xs) t1) "pc-center"
        ("pc-center-" ++ ys) t2 =
      [⟨"pc-stack", "pc-stack-" ++ xs, t1⟩, ⟨"pc-center", "pc-center-" ++ ys, t2⟩] := by
    simp [injectStyle, keyMatches]
  refine ⟨stack_center_prefix_ne xs ys, ?_, ?_, ?_⟩
  · rw [hstep]
    rfl
  · rw [hstep]
    simp [countKey, keyMatches, List.filter_cons]
  · rw [hstep]
    simp [countKey, keyMatches, List.filter_cons]

/-- Witness for C7: a default-configured `Stack` and `Center`. -/
theorem cross_kind_no_collision_witness :
    (Stack.updateConfigAndSignature ⟨"s1", false, none, none, none, ⟨none, []⟩⟩).ident =
      some "pc-stack-19ejhuf" ∧
    (Center.updateConfigAndSignature ⟨"s1", false, false, none, none, none⟩).ident =
      some "pc-center-5faod8" ∧
    ("pc-stack-19ejhuf" : String) ≠ "pc-center-5faod8" ∧
    (injectStyle (injectStyle [] "pc-stack" "pc-stack-19ejhuf" "a") "pc-center"
      "pc-center-5faod8" "b").length = 2 := by
  have h := cross_kind_no_collision ⟨"s1", false, none, none, none, ⟨none, []⟩⟩
    ⟨"s1", false, false, none, none, none⟩ "a" "b" "pc-stack-19ejhuf" "pc-center-5faod8"
    (by decide) (by decide)
  exact ⟨by decide, by decide, h.1, h.2.1⟩

/-! ## Canonicalization lemmas -/

theorem char_eq_of_toNat_eq {a b : Char} (h : a.toNat = b.toNat) : a = b :=
  Char.ext (UInt32.ext_iff.mpr h)

theorem charListLe_total : ∀ l1 l2 : List Char,
    charListLe l1 l2 = true ∨ charListLe l2 l1 = true
  | [], _ => Or.inl rfl
  | _ :: _, [] => Or.inr rfl
  | a :: as, b :: bs => by
    rcases Nat.lt_trichotomy a.toNat b.toNat with h | h | h
    · left
      simp [charListLe, h]
    · have h2 : ¬ a.toNat < b.toNat := by omega
      have h3 : ¬ b.toNat < a.toNat := by omega
      rcases charListLe_total as bs with ih | ih
      · left
        simp [charListLe, h2, h3, ih]
      · right
        simp [charListLe, h2, h3, ih, h.symm]
    · right
      simp [charListLe, h]

theorem charListLe_trans : ∀ l1 l2 l3 : List Char,
    charListLe l1 l2 = true → charListLe l2 l3 = true → charListLe l1 l3 = true
  | [], _, _, _, _ => rfl
  | _ :: _, [], _, h12, _ => by simp [charListLe] at h12
  | _ :: _, _ :: _, [], _, h23 => by simp [charListLe] at h23
  | a :: as, b :: bs, c :: cs, h12, h23 => by
    simp only [charListLe] at h12 h23 ⊢
    by_cases hab : a.toNat < b.toNat
    · by_cases hbc : b.toNat < c.toNat
      · simp [show a.toNat < c.toNat by omega]
      · rw [if_neg hbc] at h23
        by_cases hcb : c.toNat < b.toNat
        · rw [if_pos hcb] at h23
          cases h23
        · have : b.toNat = c.toNat := by omega
          simp [show a.toNat < c.toNat by omega]
    · rw [if_neg hab] at h12
      by_cases hba : b.toNat < a.toNat
      · rw [if_pos hba] at h12
        cases h12
      · have hab' : a.toNat = b.toNat := by omega
        rw [if_neg hba] at h12
        by_cases hbc : b.toNat < c.toNat
        · simp [show a.toNat < c.toNat by omega]
        · rw [if_neg hbc] at h23
          by_cases hcb : c.toNat < b.toNat
          · rw [if_pos hcb] at h23
            cases h23
          · rw [if_neg hcb] at h23
            rw [if_neg (by omega : ¬ a.toNat < c.toNat),
              if_neg (by omega : ¬ c.toNat < a.toNat)]
            exact charListLe_trans as bs cs h12 h23

theorem charListLe_antisymm : ∀ l1 l2 : List Char,
    charListLe l1 l2 = true → charListLe l2 l1 = true → l1 = l2
  | [], [], _, _ => rfl
  | [], _ :: _, _, h21 => by simp [charListLe] at h21
  | _ :: _, [], h12, _ => by simp [charListLe] at h12
  | a :: as, b :: bs, h12, h21 => by
    simp only [charListLe] at h12 h21
    by_cases hab : a.toNat < b.toNat
    · rw [if_neg (by omega : ¬ b.toNat < a.toNat), if_pos hab] at h21
      cases h21
    · by_cases hba : b.toNat < a.toNat
      · rw [if_neg hab, if_pos hba] at h12
        cases h12
      · rw [if_neg hab, if_neg hba] at h12
        rw [if_neg hba, if_neg hab] at h21
        rw [char_eq_of_toNat_eq (by omega : a.toNat = b.toNat),
          charListLe_antisymm as bs h12 h21]

instance : IsTotal (String × JsValue) entryLE :=
  ⟨fun a b => charListLe_total a.1.data b.1.data⟩

instance : IsTrans (String × JsValue) entryLE :=
  ⟨fun a b c h1 h2 => charListLe_trans a.1.data b.1.data c.1.data h1 h2⟩

theorem sorted_eq_of_perm_of_nodupkeys :
    ∀ {l₁ l₂ : List (String × JsValue)}, l₁.Perm l₂ →
      l₁.Sorted entryLE → l₂.Sorted entryLE → (l₁.map Prod.fst).Nodup → l₁ = l₂ := by
  intro l₁
  induction l₁ with
  | nil =>
    intro l₂ hp _ _ _
    exact (hp.symm.eq_nil).symm
  | cons a t ih =>
    intro l₂ hp h₁ h₂ hnd
    cases l₂ with
    | nil => exact absurd hp.eq_nil (by simp)
    | cons b t₂ =>
      have hnd₂ : ((b :: t₂).map Prod.fst).Nodup := (hp.map Prod.fst).nodup_iff.mp hnd
      have hab : a = b := by
        rcases List.mem_cons.mp (hp.mem_iff.mp (List.mem_cons_self a t)) with h | h
        · exact h
        · exfalso
          have hkey : a.1 = b.1 := by
            rcases List.mem_cons.mp (hp.symm.mem_iff.mp (List.mem_cons_self b t₂)) with hb | hb
            · rw [hb]
            · have hle1 : charListLe a.1.data b.1.data = true :=
                (List.pairwise_cons.mp h₁).1 b hb
              have hle2 : charListLe b.1.data a.1.data = true :=
                (List.pairwise_cons.mp h₂).1 a h
              exact String.ext (charListLe_antisymm _ _ hle1 hle2)
          have hmem : b.1 ∈ t₂.map Prod.fst := hkey ▸ List.mem_map_of_mem Prod.fst h
          rw [List.map_cons] at hnd₂
          exact (List.nodup_cons.mp hnd₂).1 hmem
      subst hab
      have ht : t = t₂ := by
        apply ih hp.cons_inv (List.pairwise_cons.mp h₁).2 (List.pairwise_cons.mp h₂).2
        rw [List.map_cons] at hnd
        exact (List.nodup_cons.mp hnd).2
      rw [ht]

theorem sortEntries_eq_of_perm {c1 c2 : List (String × JsValue)}
    (hp : c1.Perm c2) (hnd : (c1.map Prod.fst).Nodup) :
    sortEntries c1 = sortEntries c2 :=
  sorted_eq_of_perm_of_nodupkeys
    ((List.perm_insertionSort entryLE c1).trans
      (hp.trans (List.perm_insertionSort entryLE c2).symm))
    (List.sorted_insertionSort entryLE c1)
    (List.sorted_insertionSort entryLE c2)
    (((List.perm_insertionSort entryLE c1).map Prod.fst).nodup_iff.mpr hnd)

/-- C2: the signature is insertion-order independent: two configuration
records holding the same key/value pairs in any order (with the JS object
guarantee that keys are not duplicated) get the same signature. -/
theorem generateSignature_perm_invariant (c1 c2 : List (String × JsValue))
    (hp : c1.Perm c2) (hnd : (c1.map Prod.fst).Nodup) :
    generateSignature c1 = generateSignature c2 := by
  unfold generateSignature canonicalString
  rw [sortEntries_eq_of_perm hp hnd]

/-- Witness for C2 on a two-entry record and its swap. -/
theorem generateSignature_perm_invariant_witness :
    ([("maxWidth", JsValue.str "var(--s1)"), ("centerText", JsValue.boolean false)] :
        List (String × JsValue)).Perm
      [("centerText", JsValue.boolean false), ("maxWidth", JsValue.str "var(--s1)")] ∧
    (([("maxWidth", JsValue.str "var(--s1)"), ("centerText", JsValue.boolean false)] :
        List (String × JsValue)).map Prod.fst).Nodup ∧
    generateSignature
        [("maxWidth", JsValue.str "var(--s1)"), ("centerText", JsValue.boolean false)] =
      generateSignature
        [("centerText", JsValue.boolean false), ("maxWidth", JsValue.str "var(--s1)")] :=
  ⟨by decide, by decide,
   generateSignature_perm_invariant _ _ (by decide) (by decide)⟩

/-- C10: canonicalization identifies distinct records before any hashing:
`null` and the string `"null"` (likewise `true` and `"true"`) serialize to the
same `key:value` text, so the signatures coincide deterministically. -/
theorem canonicalization_not_injective :
    ([("k", JsValue.null)] : List (String × JsValue)) ≠ [("k", JsValue.str "null")] ∧
    canonicalString [("k", JsValue.null)] = canonicalString [("k", JsValue.str "null")] ∧
    generateSignature [("k", JsValue.null)] = generateSignature [("k", JsValue.str "null")] ∧
    ([("k", JsValue.boolean true)] : List (String × JsValue)) ≠ [("k", JsValue.str "true")] ∧
    canonicalString [("k", JsValue.boolean true)] = canonicalString [("k", JsValue.str "true")] ∧
    generateSignature [("k", JsValue.boolean true)] =
      generateSignature [("k", JsValue.str "true")] :=
  ⟨by decide, rfl, rfl, by decide, rfl, rfl⟩

/-! ## Hash arithmetic lemmas -/

theorem toUint32_lt (i : Int) : toUint32 i < 2 ^ 32 := by
  unfold toUint32
  omega

theorem toUint32_toInt32 (u : Nat) (hu : u < 2 ^ 32) : toUint32 (toInt32 u) = u := by
  unfold toUint32 toInt32
  split <;> omega

theorem toUint32_natCast (c : Nat) (hc : c < 2 ^ 32) : toUint32 (c : Int) = c := by
  unfold toUint32
  omega

theorem toUint32_jsXor (a b : Int) :
    toUint32 (jsXor a b) = toUint32 a ^^^ toUint32 b :=
  toUint32_toInt32 _ (Nat.xor_lt_two_pow (toUint32_lt a) (toUint32_lt b))

theorem toUint32_mul33 (h : Int) : toUint32 (h * 33) = toUint32 h * 33 % 2 ^ 32 := by
  unfold toUint32
  rw [Int.mul_emod h 33 (2 ^ 32)]
  have h33 : (33 : Int) % 2 ^ 32 = 33 := by norm_num
  rw [h33]
  have hnn : 0 ≤ h % (2 ^ 32 : Int) := Int.emod_nonneg h (by norm_num)
  obtain ⟨u, hu⟩ : ∃ u : Nat, h % (2 ^ 32 : Int) = (u : Int) :=
    ⟨(h % (2 ^ 32 : Int)).toNat, (Int.toNat_of_nonneg hnn).symm⟩
  rw [hu]
  rw [show ((u : Int) * 33) = ((u * 33 : Nat) : Int) by push_cast; ring]
  rw [show ((2 : Int) ^ 32) = ((2 ^ 32 : Nat) : Int) by norm_num]
  rw [← Int.natCast_mod, Int.toNat_natCast, Int.toNat_natCast]

theorem xor_mod_two_pow (a c : Nat) (hc : c < 2 ^ 32) :
    (a ^^^ c) % 2 ^ 32 = (a % 2 ^ 32) ^^^ c := by
  apply Nat.eq_of_testBit_eq
  intro i
  rw [Nat.testBit_mod_two_pow, Nat.testBit_xor, Nat.testBit_xor, Nat.testBit_mod_two_pow]
  by_cases hi : i < 32
  · simp [hi]
  · have hcb : c.testBit i = false :=
      Nat.testBit_lt_two_pow
        (lt_of_lt_of_le hc (Nat.pow_le_pow_right (by norm_num) (by omega)))
    simp [hi, hcb]

theorem char_toNat_lt (c : Char) : c.toNat < 2 ^ 32 := by
  have h := c.val.toNat_lt
  simp only [Char.toNat]
  omega

theorem hashFold_eq_specFold (l : List Char) : ∀ h : Int,
    toUint32 (l.foldl (fun h c => hashStep h c.toNat) h) =
      l.foldl (fun h c => (h * 33 ^^^ c.toNat) % 2 ^ 32) (toUint32 h) := by
  induction l with
  | nil => intro h; rfl
  | cons c cs ih =>
    intro h
    rw [List.foldl_cons, List.foldl_cons, ih]
    have hc : c.toNat < 2 ^ 32 := char_toNat_lt c
    have hstep : toUint32 (hashStep h c.toNat) =
        (toUint32 h * 33 ^^^ c.toNat) % 2 ^ 32 := by
      rw [show hashStep h c.toNat = jsXor (h * 33) ((c.toNat : Nat) : Int) from rfl]
      rw [toUint32_jsXor, toUint32_mul33, toUint32_natCast _ hc]
      rw [xor_mod_two_pow _ _ hc]
    rw [hstep]

/-- C9: the embedded `hashString` (faithful to JavaScript's signed 32-bit
`^` coercions and `>>> 0`) computes exactly the reference rolling hash of the
spec: seed 5381, fold `h := (h * 33) XOR c` with unsigned 32-bit wraparound,
base-36 output — hence the signature hash is a deterministic pure function of
the canonical string. -/
theorem hashString_eq_specRollingHash (s : String) :
    hashString s = specRollingHash s := by
  unfold hashString specRollingHash
  rw [hashFold_eq_specFold]
  rw [show toUint32 (5381 : Int) = 5381 from rfl]

/-- C5 (failing-input evaluation): a `Center` instance initialized with
`maxWidth = "s1"` whose `maxWidth` input then changes to `"s2"` is left with
its stale signature, style and tag — `ngOnChanges`'s guard tests only the
foreign keys `padding`/`borderWidth`/`backgroundColor`/`color` — although
recomputing would produce a different signature; likewise a `Stack` whose
`splitAfter` input changes from `none` to `some 2` is left stale because the
guard tests only `space`/`recursive`. -/
theorem ngOnChanges_ignores_configuration_change :
    (Center.ngOnChanges ["maxWidth"]
        { (Center.ngOnInit ⟨"s1", false, false, none, none, none⟩ []).1 with maxWidth := "s2" }
        (Center.ngOnInit ⟨"s1", false, false, none, none, none⟩ []).2 =
      ({ (Center.ngOnInit ⟨"s1", false, false, none, none, none⟩ []).1 with maxWidth := "s2" },
        (Center.ngOnInit ⟨"s1", false, false, none, none, none⟩ []).2)) ∧
    (Center.updateConfigAndSignature
        { (Center.ngOnInit ⟨"s1", false, false, none, none, none⟩ []).1 with
            maxWidth := "s2" }).ident ≠
      (Center.ngOnInit ⟨"s1", false, false, none, none, none⟩ []).1.ident ∧
    (Stack.ngOnChanges ["splitAfter"]
        { (Stack.ngOnInit ⟨"s1", false, none, none, none, ⟨none, []⟩⟩ []).1 with
            splitAfter := some 2 }
        (Stack.ngOnInit ⟨"s1", false, none, none, none, ⟨none, []⟩⟩ []).2 =
      ({ (Stack.ngOnInit ⟨"s1", false, none, none, none, ⟨none, []⟩⟩ []).1 with
            splitAfter := some 2 },
        (Stack.ngOnInit ⟨"s1", false, none, none, none, ⟨none, []⟩⟩ []).2)) ∧
    (Stack.updateConfigAndSignature
        { (Stack.ngOnInit ⟨"s1", false, none, none, none, ⟨none, []⟩⟩ []).1 with
            splitAfter := some 2 }).ident ≠
      (Stack.ngOnInit ⟨"s1", false, none, none, none, ⟨none, []⟩⟩ []).1.ident := by
  refine ⟨by decide, by decide, by decide, by decide⟩

end PokeStyle
